import Mathlib

/-!
Verification of the background image-loading scheduler and case model of the
WSI selection tool (src/selection_tool).  The Python sources are shallowly
embedded below: pure functions become Lean functions, the mutable state of
`SelectionWindow` (image cache, background-color cache, requested set, load
queue) becomes an explicit record that the embedded operations transform.
Python strings are `String`; the natural-sort comparison used by `natsorted`
works on `List Char` chunk keys.  Machine integers do not overflow in any of
the modelled code paths, so `Nat`/`Int` are used directly.
-/

namespace SelectionTool

/-! ## Case model (`_specimen_utils.py`)

`Scan` keeps the fields the claims touch: the sorted source-file paths, the
optional thumbnail path, the tri-state `selected`, the optional `score` and
the flag list.  `Slide` keeps the metadata fields used by `sort_slides` and
`selected_information`, plus its scans.  A `Specimen` owns its slides and the
free-text comments; its flattened scan list is derived, exactly as
`Specimen.__init__`/`sort_slides` rebuild it from the slide order. -/

structure Scan where
  paths : List String
  thumbnailPath : Option String
  selected : Option Bool
  score : Option Int
  flags : List String
  deriving Repr, DecidableEq

structure Slide where
  paNumber : String
  specimenNumber : String
  block : String
  staining : String
  scans : List Scan
  deriving Repr, DecidableEq

structure Specimen where
  slides : List Slide
  comments : String
  deriving Repr, DecidableEq

/-- The derived flattened scan list (`self.__scans`), which follows the slide
order: `for slide in self.__slides: self.__scans.extend(slide.scans)`. -/
def Specimen.scans (sp : Specimen) : List Scan :=
  sp.slides.flatMap Slide.scans

/-- Python truthiness of the tri-state `scan.selected` (`None`/`True`/`False`)
as tested by `if scan.selected`. -/
def scanIsSelected (sc : Scan) : Bool :=
  match sc.selected with
  | some b => b
  | none => false

/-- `Slide.selected_information`: keep only the selected scans; return `None`
(here `none`) when no scan of the slide is selected. -/
def Slide.selectedInformation (sl : Slide) : Option Slide :=
  let scanInformation := sl.scans.filter scanIsSelected
  if scanInformation.length ≠ 0 then
    some { sl with scans := scanInformation }
  else
    none

/-- `Specimen.selected_information`: collect the non-`None`
`slide.selected_information` values; return `None` when the list is empty. -/
def Specimen.selectedInformation (sp : Specimen) : Option Specimen :=
  let slideInformation := sp.slides.filterMap Slide.selectedInformation
  if slideInformation.length ≠ 0 then
    some { slides := slideInformation, comments := sp.comments }
  else
    none

/-- A small concrete specimen (one slide, one scan without a thumbnail
path), used for concrete evaluations. -/
def exampleScan : Scan :=
  { paths := [], thumbnailPath := none, selected := none, score := none,
    flags := [] }

def exampleSlide : Slide :=
  { paNumber := "T21-00001", specimenNumber := "I", block := "1",
    staining := "HE", scans := [exampleScan] }

def exampleSpecimen : Specimen :=
  { slides := [exampleSlide], comments := "" }

/-! ## Natural-sort keys (`natsorted` from the natsort library)

`natsorted` splits every string into alternating text and unsigned-integer
chunks and compares the chunk sequences lexicographically, with a number
chunk sorting before any text chunk at the same position and a string that
ends without a trailing number sorting before the same string extended by a
number.  A chunk is embedded as `Lex (List Char × Lex (Bool × Nat))`: the
text run, then `false` (no following number, minimal) or `true` together
with the value of the following digit run. -/

abbrev Chunk := Lex ((List Char) × Lex (Bool × Nat))

def mkChunk (text : List Char) (hasNum : Bool) (n : Nat) : Chunk :=
  toLex (text, toLex (hasNum, n))

/-- One pass over the characters, accumulating the current text run
(in reverse) and the value of the current digit run. -/
def natChunksGo : List Char → List Char → Option Nat → List Chunk
  | [], curText, some n => [mkChunk curText.reverse true n]
  | [], curText, none =>
      if curText = [] then [] else [mkChunk curText.reverse false 0]
  | c :: rest, curText, curNum =>
      if c.isDigit then
        natChunksGo rest curText (some ((curNum.getD 0) * 10 + (c.toNat - 48)))
      else
        match curNum with
        | some n => mkChunk curText.reverse true n :: natChunksGo rest [c] none
        | none => natChunksGo rest (c :: curText) none

/-- Natural-sort key of a Python string. -/
def natKey (s : String) : List Chunk :=
  natChunksGo s.data [] none

/-! ## `Specimen.sort_slides`

The Python code builds, for each slide, the tuple
`(specimen_number, block, not is_HE(staining), staining, index)`, natsorts
the tuples, reads the original indices back off the sorted tuples and
re-indexes the slide list.  The tuple is embedded as a lexicographic product
whose string components are natural-sort keys (`natsorted` transforms the
string elements of a tuple and leaves booleans and integers as they are). -/

abbrev SlideKey :=
  Lex ((List Chunk) × Lex ((List Chunk) × Lex (Bool × (List Chunk))))

abbrev KeyedIdx := Lex (SlideKey × Nat)

def slideKey (isHE : String → Bool) (s : Slide) : SlideKey :=
  toLex (natKey s.specimenNumber,
    toLex (natKey s.block, toLex (!isHE s.staining, natKey s.staining)))

def dummySlide : Slide :=
  { paNumber := "", specimenNumber := "", block := "", staining := "", scans := [] }

/-- The list of sort tuples (mirrors `for i, s in enumerate(self.__slides)`). -/
def keyedSlides (isHE : String → Bool) (slides : List Slide) : List KeyedIdx :=
  (List.range slides.length).map
    (fun i => toLex (slideKey isHE (slides.getD i dummySlide), i))

/-- `Specimen.sort_slides`: natsort the tuples
(`natsorted(unsorted_slides)`), read the original index off each sorted
tuple (`[s[-1] for s in ...]`), and re-index the slide list
(`[self.__slides[i] for i in indices_sorted_slides]`).  The flattened scan
list is re-derived from the new slide order. -/
def Specimen.sortSlides (isHE : String → Bool) (sp : Specimen) : Specimen :=
  { sp with slides :=
      ((List.insertionSort (· ≤ ·) (keyedSlides isHE sp.slides)).map
        (fun k => (ofLex k).2)).filterMap (fun i => sp.slides[i]?) }

/-! ## Session-window configuration (`SelectionWindow.__init__`, lines 245-259)

The selection-threshold validation: when `select_by_default` holds, a
supplied threshold is overwritten by `None` (with a printed warning); a
remaining `None` becomes the maximum button count; a remaining value below 1
raises `ValueError`. -/

def thresholdErrorMessage : String :=
  "The selection threshold must be larger than zero."

def checkSelectionThreshold (selectByDefault : Bool)
    (selectionThreshold : Option Int) (maxButtons : Int) : Except String Int :=
  let st := if selectByDefault && selectionThreshold.isSome then none
            else selectionThreshold
  match st with
  | none => Except.ok maxButtons
  | some t =>
      if t < 1 then Except.error thresholdErrorMessage
      else Except.ok t

/-! ## Navigation (`_next_case` / `_previous_case`)

The result is `none` when the window closes (`self.close()`), otherwise
`some` of the new specimen index.  `selectedIndices` models
`self.__selected_indices` (always a nonempty sorted list when present; an
empty input list is replaced by `None` in `__init__`). -/

def listMax (s : List Nat) : Nat := s.foldl max 0

def listMin (s : List Nat) : Nat := s.foldl min (s.headD 0)

def nextCase (selectedIndices : Option (List Nat)) (numSpecimens : Nat)
    (idx : Nat) : Option Nat :=
  match selectedIndices with
  | some s =>
      if idx = listMax s then none
      else some (s.getD (s.indexOf idx + 1) idx)
  | none =>
      if numSpecimens ≤ idx + 1 then none
      else some (idx + 1)

def previousCase (selectedIndices : Option (List Nat)) (_numSpecimens : Nat)
    (idx : Nat) : Option Nat :=
  match selectedIndices with
  | some s =>
      if idx ≠ listMin s then some (s.getD (s.indexOf idx - 1) idx)
      else some idx
  | none =>
      if 0 < idx then some (idx - 1)
      else some idx

/-! ## Background load scheduler state

A Load Request Key is the Python tuple
`(specimen index, scan index, higher-magnification?)`.  The mutable state of
`SelectionWindow` that the scheduler touches is collected in `SchedState`:
the image cache `__loaded_images` (a dict whose values may be Python `None`,
the explicit no-image marker, hence `Option α`), the background-color dict,
the in-flight `__requested` list, and the priority queue contents.  Queue
entries carry an `Int` priority because the terminate sentinel uses -1. -/

abbrev Key := Nat × Nat × Bool

structure SchedState (α : Type) where
  loadedImages : List (Key × Option α)
  backgroundColors : List (Key × String)
  requested : List Key
  queue : List (Int × Key)
  deriving Repr

/-- The scheduler state of a fresh `SelectionWindow` (`__init__`, lines
196-198: empty dicts, empty requested list, empty queue). -/
def initialSchedState (α : Type) : SchedState α :=
  { loadedImages := [], backgroundColors := [], requested := [], queue := [] }

/-- Python `key in dict`. -/
def hasKey {β : Type} (d : List (Key × β)) (k : Key) : Bool :=
  d.any (fun e => e.1 = k)

/-- Python `dict[key] = value`: overwrite in place, or append a new entry. -/
def dictSet {β : Type} (d : List (Key × β)) (k : Key) (v : β) :
    List (Key × β) :=
  if hasKey d k then d.map (fun e => if e.1 = k then (k, v) else e)
  else d ++ [(k, v)]

/-- Python `dict[key]` as a partial lookup: `none` models the `KeyError`. -/
def dictGet {β : Type} (d : List (Key × β)) (k : Key) : Option β :=
  (d.find? (fun e => e.1 = k)).map (fun e => e.2)

/-- The deduplicating enqueue of `_change_widgets` (lines 673-686): a key is
put on the queue, and appended to `__requested`, only when it is neither in
`__loaded_images` nor in `__requested`. -/
def enqueueKey {α : Type} (p : Int) (k : Key) (st : SchedState α) :
    SchedState α :=
  if hasKey st.loadedImages k then st
  else if k ∈ st.requested then st
  else { st with queue := st.queue ++ [(p, k)],
                 requested := st.requested ++ [k] }

/-- `range(-before, after+1)` as integer offsets. -/
def bufferOffsets (before after : Nat) : List Int :=
  (List.range (before + after + 1)).map (fun j => (j : Int) - (before : Int))

/-- The in-range specimen index list of `_change_widgets` (lines 642-652):
with a restricted subset the window is taken over positions inside the
subset list; otherwise over raw indices, clipped to `[0, numSpecimens)`. -/
def computeIndices (selectedIndices : Option (List Nat)) (before after : Nat)
    (cur : Nat) (numSpecimens : Nat) : List Nat :=
  match selectedIndices with
  | some s =>
      let pos : Int := s.indexOf cur
      (bufferOffsets before after).filterMap (fun i =>
        let index := pos + i
        if 0 ≤ index ∧ index < (s.length : Int) then s[index.toNat]? else none)
  | none =>
      (bufferOffsets before after).filterMap (fun i =>
        let index := (cur : Int) + i
        if 0 ≤ index ∧ index < (numSpecimens : Int) then some index.toNat
        else none)

/-- Thumbnail priority: `abs(self.__specimen_index - specimen_index)`. -/
def thumbPriority (cur specimenIndex : Nat) : Int :=
  |(cur : Int) - (specimenIndex : Int)|

/-- Higher-magnification priority:
`priority + max(self.__specimen_buffer) + 1`. -/
def himagPriority (before after cur specimenIndex : Nat) : Int :=
  thumbPriority cur specimenIndex + (max before after : Int) + 1

/-- The inner loop of `_change_widgets` over the scans of one in-range
specimen (lines 670-686): request the thumbnail, and, when
`__load_higher_magnification` holds, the higher-magnification image. -/
def enqueueForSpecimen {α : Type} (loadHigher : Bool) (before after : Nat)
    (cur specimenIndex numScans : Nat) (st : SchedState α) : SchedState α :=
  (List.range numScans).foldl (fun st scanIndex =>
    let st := enqueueKey (thumbPriority cur specimenIndex)
      (specimenIndex, scanIndex, false) st
    if loadHigher then
      enqueueKey (himagPriority before after cur specimenIndex)
        (specimenIndex, scanIndex, true) st
    else st) st

/-- The whole enqueue phase of `_change_widgets`: iterate over the in-range
indices; `scanCounts` lists `len(specimen.scans)` per specimen. -/
def enqueueAll {α : Type} (loadHigher : Bool) (before after : Nat)
    (scanCounts : List Nat) (selectedIndices : Option (List Nat)) (cur : Nat)
    (st : SchedState α) : SchedState α :=
  (computeIndices selectedIndices before after cur scanCounts.length).foldl
    (fun st specimenIndex =>
      enqueueForSpecimen loadHigher before after cur specimenIndex
        (scanCounts.getD specimenIndex 0) st) st

/-- The cache maintenance of `_change_widgets` (lines 636-660): first remove
from `__requested` every key that is loaded now, then keep only the
`__loaded_images` and `__background_colors` entries whose specimen index is
inside the new in-range list.  (`__requested` is not filtered by range.) -/
def pruneState {α : Type} (indices : List Nat) (st : SchedState α) :
    SchedState α :=
  let requested := st.requested.filter (fun k => ¬ hasKey st.loadedImages k)
  { loadedImages := st.loadedImages.filter (fun e => e.1.1 ∈ indices),
    backgroundColors := st.backgroundColors.filter (fun e => e.1.1 ∈ indices),
    requested := requested,
    queue := st.queue }

/-! ## Queue ordering and the single-worker service order

`queue.PriorityQueue` pops entries in ascending order of the Python tuple
`(priority, key)`, comparing the key tuple `(specimen, scan, bool)`
lexicographically on ties (`False < True`).  Under single-worker sequential
execution with all entries enqueued up front, the service order is the
queue contents sorted by that order. -/

abbrev EntryKey := Lex (Int × Lex (Nat × Lex (Nat × Bool)))

def entryKey (e : Int × Key) : EntryKey :=
  toLex (e.1, toLex (e.2.1, toLex (e.2.2.1, e.2.2.2)))

def entryLe (a b : Int × Key) : Prop := entryKey a ≤ entryKey b

instance : DecidableRel entryLe := fun a b =>
  inferInstanceAs (Decidable (entryKey a ≤ entryKey b))

def serviceOrder (q : List (Int × Key)) : List (Int × Key) :=
  List.insertionSort entryLe q

/-- Position of an entry in the single-worker service order. -/
def serviceIndex (q : List (Int × Key)) (e : Int × Key) : Nat :=
  @List.indexOf (Int × Key) instBEqOfDecidableEq e (serviceOrder q)

/-- Specimen-index distance of a queue entry from the current specimen. -/
def entryDistance (cur : Nat) (e : Int × Key) : Int :=
  |(cur : Int) - (e.2.1 : Int)|

/-! ## The terminate sentinel (`closeEvent`, lines 965-979)

`closeEvent` puts the pair of -1 and the terminate string once per worker.  A queue payload is
either the terminate marker or a request key; comparing the string
the terminate string with a key tuple would raise `TypeError` in Python, so the
payload comparison is partial: `none` models the `TypeError`. -/

inductive Payload where
  | terminate : Payload
  | request : Key → Payload
  deriving Repr, DecidableEq

def keyAsEntry (k : Key) : Lex (Nat × Lex (Nat × Bool)) :=
  toLex (k.1, toLex (k.2.1, k.2.2))

def payloadLt : Payload → Payload → Option Bool
  | Payload.terminate, Payload.terminate => some false
  | Payload.request a, Payload.request b =>
      some (decide (keyAsEntry a < keyAsEntry b))
  | _, _ => none

/-- Python tuple comparison `(p1, k1) < (p2, k2)`: decided by the priorities
when they differ, otherwise it falls through to the payload comparison. -/
def entryLt (a b : Int × Payload) : Option Bool :=
  if a.1 < b.1 then some true
  else if b.1 < a.1 then some false
  else payloadLt a.2 b.2

def terminateSentinel : Int × Payload := (-1, Payload.terminate)

/-! ## High-magnification decode (`_load_image`, lines 534-583)

The decoder (SlideLoader) is abstracted as a function from a list of source
paths to `Option α`: `none` models the `ValueError` raised when the target
magnification is not representable with the files loaded so far.  The loop
adds one path at a time, in the fixed order of `scan.paths`, and stops on
the first success; if the paths are exhausted the cache is left untouched
and only a diagnostic is printed. -/

structure LoadImageResult (α : Type) where
  attempts : List (List String)
  cached : Option α
  diagnostics : List String
  deriving Repr

def noPathsWarning : String :=
  "Warning: No path(s) for high magnification scan are available."

def notLoadedWarning : String :=
  "Warning: A scan was not successfully loaded. Check if the magnification was set correctly"

def loadImageGo {α : Type} (decode : List String → Option α)
    (subsetPaths : List String) : List String → LoadImageResult α
  | [] => { attempts := [], cached := none, diagnostics := [notLoadedWarning] }
  | path :: rest =>
      let subsetPaths := subsetPaths ++ [path]
      match decode subsetPaths with
      | some image =>
          { attempts := [subsetPaths], cached := some image, diagnostics := [] }
      | none =>
          let r := loadImageGo decode subsetPaths rest
          { r with attempts := subsetPaths :: r.attempts }

def loadImage {α : Type} (decode : List String → Option α)
    (paths : List String) : LoadImageResult α :=
  if paths.length = 0 then
    { attempts := [], cached := none, diagnostics := [noPathsWarning] }
  else
    loadImageGo decode [] paths

/-- Python string order (lexicographic by code point), used by
`sorted(...)` over the SLIDE file names in `Scan.__init__`. -/
def pyStrLe (a b : String) : Prop := a.data ≤ b.data

instance : DecidableRel pyStrLe := fun a b =>
  inferInstanceAs (Decidable (a.data ≤ b.data))

/-- The sorted source-file order fixed once in `Scan.__init__`. -/
def sortedScanFiles (files : List String) : List String :=
  List.insertionSort pyStrLe files

/-! ## Thumbnail decode (`_load_thumbail`, lines 585-616) and the
current-specimen thumbnail pass of `_change_widgets` (lines 662-666).

`readThumbnail` abstracts the SimpleITK read (`none` models any decode
exception); `bgColor` abstracts `calculate_background_color`.  Every branch
writes a `__loaded_images` entry for the key: `None` when the path is
missing or the decode fails, the image otherwise. -/

def loadThumbnail {α : Type} (readThumbnail : String → Option α)
    (bgColor : α → String) (thumbnailPath : Option String) (k : Key)
    (st : SchedState α) : SchedState α :=
  match thumbnailPath with
  | none => { st with loadedImages := dictSet st.loadedImages k none }
  | some path =>
      match readThumbnail path with
      | none => { st with loadedImages := dictSet st.loadedImages k none }
      | some image =>
          { st with
              backgroundColors :=
                dictSet st.backgroundColors k (bgColor image),
              loadedImages := dictSet st.loadedImages k (some image) }

/-- `scan.thumbnail_path` of the scan at `scanIndex` (always in range when
called from the loop below). -/
def scanThumbnailPath (sp : Specimen) (scanIndex : Nat) : Option String :=
  match sp.scans[scanIndex]? with
  | some sc => sc.thumbnailPath
  | none => none

/-- Lines 662-666: synchronously load every not-yet-cached thumbnail of the
current specimen. -/
def loadCurrentThumbnails {α : Type} (readThumbnail : String → Option α)
    (bgColor : α → String) (sp : Specimen) (cur : Nat) (st : SchedState α) :
    SchedState α :=
  (List.range sp.scans.length).foldl (fun st scanIndex =>
    let k : Key := (cur, scanIndex, false)
    if hasKey st.loadedImages k then st
    else loadThumbnail readThumbnail bgColor (scanThumbnailPath sp scanIndex)
      k st) st

/-- The cache lookup of `_set_image` (lines 515-518): prefer the
higher-magnification entry, fall back to the thumbnail entry, then index the
dict (a missing key would raise `KeyError`, modelled by `none`). -/
def setImageLookup {α : Type} (st : SchedState α) (cur scanIndex : Nat) :
    Option (Option α) :=
  let k : Key :=
    if hasKey st.loadedImages (cur, scanIndex, true) then (cur, scanIndex, true)
    else (cur, scanIndex, false)
  dictGet st.loadedImages k

/-! ## Theorems -/

/-- An enqueue for a key already marked requested is a no-op. -/
theorem enqueueKey_of_mem_requested {α : Type} (p : Int) (k : Key)
    (st : SchedState α) (h : k ∈ st.requested) : enqueueKey p k st = st := by
  unfold enqueueKey
  by_cases h1 : hasKey st.loadedImages k
  · simp [h1]
  · simp [h1, h]

/-- Claim C4, counterexample: with `select_by_default = True` a supplied
non-positive selection threshold (here 0) does not abort construction: the
threshold is silently overwritten and validation returns
`ok max_buttons` instead of an error. -/
theorem C4_threshold_counterexample :
    checkSelectionThreshold true (some 0) 5 = Except.ok 5 := rfl

/-- Claim C4, amended: a selection threshold below 1 aborts construction
whenever `select_by_default` is false; when `select_by_default` is true any
supplied threshold (non-positive included) is discarded and construction
proceeds with the maximum button count. -/
theorem C4_threshold_amended (t maxButtons : Int) (h : t < 1) :
    checkSelectionThreshold false (some t) maxButtons =
      Except.error thresholdErrorMessage
    ∧ ∀ t' : Int, checkSelectionThreshold true (some t') maxButtons =
        Except.ok maxButtons := by
  constructor
  · simp [checkSelectionThreshold, h]
  · intro t'
    simp [checkSelectionThreshold]

/-- Witness for C4_threshold_amended at threshold 0. -/
theorem C4_threshold_witness :
    checkSelectionThreshold false (some 0) 5 =
      Except.error thresholdErrorMessage
    ∧ ∀ t' : Int, checkSelectionThreshold true (some t') 5 = Except.ok 5 :=
  C4_threshold_amended 0 5 (by decide)

/-- Claim C5, counterexample: a navigation step before the first specimen
does not end the session; `_previous_case` leaves the window open on the
same specimen, both without and with a restricted subset. -/
theorem C5_previous_counterexample :
    previousCase none 5 0 = some 0
    ∧ previousCase (some [2, 4]) 9 2 = some 2 := by
  constructor
  · rfl
  · decide

/-- Claim C5, amended: stepping past the last specimen closes the window
(`none`), in both navigation modes; stepping before the first specimen never
closes the window: `_previous_case` always stays open, remaining on the
current specimen at the lower boundary. -/
theorem C5_navigation_amended (s : List Nat) (n idx idxA idxB : Nat)
    (hA : idxA = listMax s) (hB : idxB = listMin s) :
    (nextCase none n idx = none ↔ n ≤ idx + 1)
    ∧ nextCase (some s) n idxA = none
    ∧ previousCase none n idx ≠ none
    ∧ previousCase (some s) n idx ≠ none
    ∧ previousCase none n 0 = some 0
    ∧ previousCase (some s) n idxB = some idxB := by
  refine ⟨?_, ?_, ?_, ?_, rfl, ?_⟩
  · unfold nextCase
    by_cases h : n ≤ idx + 1 <;> simp [h]
  · simp [nextCase, hA]
  · unfold previousCase
    by_cases h : 0 < idx <;> simp [h]
  · unfold previousCase
    by_cases h : idx ≠ listMin s <;> simp [h]
  · simp [previousCase, hB]

/-- Witness for C5_navigation_amended on the subset `[2, 4]`. -/
theorem C5_navigation_witness :
    (nextCase none 9 7 = none ↔ 9 ≤ 7 + 1)
    ∧ nextCase (some [2, 4]) 9 4 = none
    ∧ previousCase none 9 7 ≠ none
    ∧ previousCase (some [2, 4]) 9 7 ≠ none
    ∧ previousCase none 9 0 = some 0
    ∧ previousCase (some [2, 4]) 9 2 = some 2 :=
  C5_navigation_amended [2, 4] 9 7 4 2 (by decide) (by decide)

/-- Claim C7: the deduplicating enqueue.  Starting from a state in which the
key is neither cached nor requested and has no queue entry, the first
enqueue appends exactly one queue entry and records the key in the
requested set; the second enqueue of the same key, at any priority, is a
no-op, so exactly one queue entry results. -/
theorem C7_dedup {α : Type} (st : SchedState α) (p p' : Int) (k : Key)
    (hl : hasKey st.loadedImages k = false) (hr : k ∉ st.requested)
    (hq : (st.queue.filter (fun e => e.2 = k)).length = 0) :
    (((enqueueKey p' k (enqueueKey p k st)).queue.filter
        (fun e => e.2 = k)).length = 1)
    ∧ k ∈ (enqueueKey p k st).requested
    ∧ enqueueKey p' k (enqueueKey p k st) = enqueueKey p k st := by
  have h1 : enqueueKey p k st =
      { st with queue := st.queue ++ [(p, k)],
                requested := st.requested ++ [k] } := by
    unfold enqueueKey
    simp [hl, hr]
  have hmem : k ∈ (enqueueKey p k st).requested := by
    rw [h1]
    simp
  have h2 : enqueueKey p' k (enqueueKey p k st) = enqueueKey p k st :=
    enqueueKey_of_mem_requested p' k _ hmem
  refine ⟨?_, hmem, h2⟩
  rw [h2, h1]
  simp [List.filter_append, List.length_eq_zero.mp hq]

/-- Witness for C7_dedup: enqueueing `(0, 0, false)` twice into the empty
state leaves exactly one queue entry. -/
theorem C7_dedup_witness :
    (((enqueueKey 3 (0, 0, false)
        (enqueueKey 0 (0, 0, false) (initialSchedState Nat))).queue.filter
          (fun e => e.2 = (0, 0, false))).length = 1)
    ∧ (0, 0, false) ∈
        (enqueueKey 0 (0, 0, false) (initialSchedState Nat)).requested
    ∧ enqueueKey 3 (0, 0, false)
        (enqueueKey 0 (0, 0, false) (initialSchedState Nat)) =
      enqueueKey 0 (0, 0, false) (initialSchedState Nat) :=
  C7_dedup (initialSchedState Nat) 0 3 (0, 0, false)
    (by decide) (by decide) (by decide)

instance : IsTotal String pyStrLe :=
  ⟨fun a b => le_total a.data b.data⟩

instance : IsTrans String pyStrLe :=
  ⟨fun _ _ _ h1 h2 => le_trans h1 h2⟩

/-- When the decoder fails on every path subset, the loop tries every
subset in order, writes no cache entry and records the diagnostic. -/
theorem loadImageGo_allfail {α : Type} (decode : List String → Option α) :
    ∀ (rest prev : List String),
    (∀ j, j < rest.length → decode (prev ++ rest.take (j + 1)) = none) →
    loadImageGo decode prev rest =
      { attempts := (List.range rest.length).map
          (fun j => prev ++ rest.take (j + 1)),
        cached := none, diagnostics := [notLoadedWarning] } := by
  intro rest
  induction rest with
  | nil => intro prev _; simp [loadImageGo]
  | cons p rest' ih =>
      intro prev h
      have h0 : decode (prev ++ [p]) = none := by
        have := h 0 (Nat.succ_pos _)
        simpa using this
      have hstep : ∀ j, j < rest'.length →
          decode ((prev ++ [p]) ++ rest'.take (j + 1)) = none := by
        intro j hj
        have := h (j + 1) (Nat.succ_lt_succ hj)
        simpa [List.take_succ_cons, List.append_assoc] using this
      simp only [loadImageGo, h0, ih (prev ++ [p]) hstep]
      refine congrArg (fun a => LoadImageResult.mk a none [notLoadedWarning]) ?_
      rw [List.length_cons, List.range_succ_eq_map]
      simp [List.map_map, Function.comp, List.take_succ_cons,
        List.append_assoc]

/-- Mapping over `range (n + 1)` peels off the first index. -/
theorem range_map_shift {γ : Type} (n : Nat) (F : Nat → γ) :
    (List.range (n + 1)).map F =
      F 0 :: (List.range n).map (fun j => F (j + 1)) := by
  rw [List.range_succ_eq_map]
  simp [List.map_map, Function.comp]

/-- When the decoder first succeeds with the subset of the first `k + 1`
paths, the loop makes exactly the attempts with the first 1, 2, ..., k + 1
paths, in order, and caches the decoded image. -/
theorem loadImageGo_success {α : Type} (decode : List String → Option α) :
    ∀ (rest prev : List String) (k : Nat) (img : α),
    k < rest.length →
    (∀ j, j < k → decode (prev ++ rest.take (j + 1)) = none) →
    decode (prev ++ rest.take (k + 1)) = some img →
    loadImageGo decode prev rest =
      { attempts := (List.range (k + 1)).map
          (fun j => prev ++ rest.take (j + 1)),
        cached := some img, diagnostics := [] } := by
  intro rest
  induction rest with
  | nil => intro prev k img hk; exact absurd hk (by simp)
  | cons p rest' ih =>
      intro prev k img hk hfail hsucc
      cases hd : decode (prev ++ [p]) with
      | some img0 =>
          have hk0 : k = 0 := by
            by_contra hne
            have hklt : 0 < k := Nat.pos_of_ne_zero hne
            have := hfail 0 hklt
            simp only [List.take_succ_cons, List.take_zero] at this
            rw [hd] at this
            exact Option.noConfusion this
          subst hk0
          simp only [List.take_succ_cons, List.take_zero] at hsucc
          rw [hd] at hsucc
          cases hsucc
          have hr1 : List.range 1 = [0] := rfl
          simp [loadImageGo, hd, hr1]
      | none =>
          cases k with
          | zero =>
              simp only [List.take_succ_cons, List.take_zero] at hsucc
              rw [hd] at hsucc
              exact Option.noConfusion hsucc
          | succ k' =>
              have hk' : k' < rest'.length := Nat.lt_of_succ_lt_succ hk
              have hfail' : ∀ j, j < k' →
                  decode ((prev ++ [p]) ++ rest'.take (j + 1)) = none := by
                intro j hj
                have := hfail (j + 1) (Nat.succ_lt_succ hj)
                simpa [List.take_succ_cons, List.append_assoc] using this
              have hsucc' :
                  decode ((prev ++ [p]) ++ rest'.take (k' + 1)) = some img := by
                simpa [List.take_succ_cons, List.append_assoc] using hsucc
              simp only [loadImageGo, hd, ih (prev ++ [p]) k' img hk' hfail' hsucc']
              refine congrArg (fun a => LoadImageResult.mk a (some img) []) ?_
              rw [range_map_shift (k' + 1)
                (fun j => prev ++ (p :: rest').take (j + 1))]
              simp [List.take_succ_cons, List.append_assoc]

/-- Claim C3: the high-magnification decode is incremental over the fixed
sorted path order.  With a decoder whose target magnification first becomes
representable with the first `k + 1` files, `_load_image` makes exactly
`k + 1` attempts, with the first 1, 2, ..., k + 1 paths in order, and caches
the result; with a decoder that fails (magnification unavailable) on every
subset, all `n` subsets are attempted, no cache entry is written and the
diagnostic is emitted.  The path order itself is the sorted order fixed in
`Scan.__init__`. -/
theorem C3_incremental_decode {α : Type}
    (decode decodeF : List String → Option α) (paths files : List String)
    (k : Nat) (img : α)
    (hk : k < paths.length)
    (hfail : ∀ j, j < k → decode (paths.take (j + 1)) = none)
    (hsucc : decode (paths.take (k + 1)) = some img)
    (hallfail : ∀ j, j < paths.length → decodeF (paths.take (j + 1)) = none) :
    (loadImage decode paths).attempts =
      (List.range (k + 1)).map (fun j => paths.take (j + 1))
    ∧ (loadImage decode paths).cached = some img
    ∧ (loadImage decodeF paths).cached = none
    ∧ (loadImage decodeF paths).attempts =
      (List.range paths.length).map (fun j => paths.take (j + 1))
    ∧ (loadImage decodeF paths).diagnostics = [notLoadedWarning]
    ∧ List.Pairwise pyStrLe (sortedScanFiles files) := by
  have hne : ¬ paths.length = 0 := by omega
  have hs := loadImageGo_success decode paths [] k img hk
    (by simpa using hfail) (by simpa using hsucc)
  have hf := loadImageGo_allfail decodeF paths []
    (by simpa using hallfail)
  unfold loadImage
  rw [if_neg hne, if_neg hne, hs, hf]
  refine ⟨by simp, rfl, rfl, by simp, rfl, ?_⟩
  exact List.sorted_insertionSort pyStrLe files

/-- Witness for C3_incremental_decode: three source files where only the
third suffices — exactly three attempts, in order, then a cache write; and
an always-failing decoder leaves the cache entry absent with a
diagnostic. -/
theorem C3_incremental_decode_witness :
    (loadImage (fun l => if 3 ≤ l.length then some 7 else none)
        ["a", "b", "c"]).attempts =
      (List.range 3).map (fun j => ["a", "b", "c"].take (j + 1))
    ∧ (loadImage (fun l => if 3 ≤ l.length then some 7 else none)
        ["a", "b", "c"]).cached = some 7
    ∧ (loadImage (fun _ => (none : Option Nat)) ["a", "b", "c"]).cached = none
    ∧ (loadImage (fun _ => (none : Option Nat)) ["a", "b", "c"]).attempts =
      (List.range (["a", "b", "c"] : List String).length).map
        (fun j => ["a", "b", "c"].take (j + 1))
    ∧ (loadImage (fun _ => (none : Option Nat))
        ["a", "b", "c"]).diagnostics = [notLoadedWarning]
    ∧ List.Pairwise pyStrLe (sortedScanFiles ["b", "a"]) :=
  C3_incremental_decode (fun l => if 3 ≤ l.length then some 7 else none)
    (fun _ => none) ["a", "b", "c"] ["b", "a"] 2 7
    (by decide) (by decide) (by decide) (by decide)

/-- Any entry present after an enqueue was present before, or is the
enqueued entry. -/
theorem mem_queue_enqueueKey {α : Type} {e : Int × Key} {p : Int} {k : Key}
    {st : SchedState α} (h : e ∈ (enqueueKey p k st).queue) :
    e ∈ st.queue ∨ e = (p, k) := by
  unfold enqueueKey at h
  split at h
  · exact Or.inl h
  · split at h
    · exact Or.inl h
    · simp only [List.mem_append, List.mem_singleton] at h
      exact h

/-- Any entry present after the per-specimen enqueue loop was present
before, or is a thumbnail or higher-magnification entry of that specimen
with the priorities computed by the loop. -/
theorem mem_queue_enqueueForSpecimen {α : Type} {e : Int × Key}
    (loadHigher : Bool) (before after cur si ns : Nat) (st : SchedState α)
    (h : e ∈ (enqueueForSpecimen loadHigher before after cur si ns st).queue) :
    e ∈ st.queue
    ∨ ∃ sc, e = (thumbPriority cur si, (si, sc, false))
          ∨ e = (himagPriority before after cur si, (si, sc, true)) := by
  induction ns with
  | zero => exact Or.inl h
  | succ n ih =>
      rw [enqueueForSpecimen, List.range_succ, List.foldl_append,
        List.foldl_cons, List.foldl_nil] at h
      rw [enqueueForSpecimen] at ih
      by_cases hlh : loadHigher = true
      · rw [hlh] at h ih
        simp only [if_pos rfl] at h
        rcases mem_queue_enqueueKey h with h1 | h1
        · rcases mem_queue_enqueueKey h1 with h2 | h2
          · rcases ih h2 with h3 | h3
            · exact Or.inl h3
            · exact Or.inr h3
          · exact Or.inr ⟨n, Or.inl h2⟩
        · exact Or.inr ⟨n, Or.inr h1⟩
      · rw [Bool.not_eq_true] at hlh
        rw [hlh] at h ih
        simp only [Bool.false_eq_true, if_false] at h
        rcases mem_queue_enqueueKey h with h1 | h1
        · rcases ih h1 with h3 | h3
          · exact Or.inl h3
          · exact Or.inr h3
        · exact Or.inr ⟨n, Or.inl h1⟩

/-- Any entry present after the whole enqueue phase was present before, or
is a thumbnail or higher-magnification entry of some in-range specimen,
with the priorities computed by `_change_widgets`. -/
theorem mem_queue_enqueueAll_aux {α : Type} {e : Int × Key}
    (loadHigher : Bool) (before after cur : Nat) (counts : List Nat) :
    ∀ (idxs : List Nat) (st : SchedState α),
    e ∈ ((idxs.foldl (fun st si =>
        enqueueForSpecimen loadHigher before after cur si
          (counts.getD si 0) st) st).queue) →
    e ∈ st.queue
    ∨ ∃ si ∈ idxs, ∃ sc,
        e = (thumbPriority cur si, (si, sc, false))
        ∨ e = (himagPriority before after cur si, (si, sc, true)) := by
  intro idxs
  induction idxs with
  | nil => intro st h; exact Or.inl h
  | cons i idxs' ih =>
      intro st h
      rw [List.foldl_cons] at h
      rcases ih _ h with h1 | h1
      · rcases mem_queue_enqueueForSpecimen loadHigher before after cur i
          (counts.getD i 0) st h1 with h2 | h2
        · exact Or.inl h2
        · exact Or.inr ⟨i, List.mem_cons_self i idxs', h2⟩
      · obtain ⟨si, hsi, hsc⟩ := h1
        exact Or.inr ⟨si, List.mem_cons_of_mem i hsi, hsc⟩

theorem mem_queue_enqueueAll {α : Type} {e : Int × Key} (loadHigher : Bool)
    (before after : Nat) (counts : List Nat)
    (sel : Option (List Nat)) (cur : Nat) (st : SchedState α)
    (h : e ∈ (enqueueAll loadHigher before after counts sel cur st).queue) :
    e ∈ st.queue
    ∨ ∃ si ∈ computeIndices sel before after cur counts.length, ∃ sc,
        e = (thumbPriority cur si, (si, sc, false))
        ∨ e = (himagPriority before after cur si, (si, sc, true)) :=
  mem_queue_enqueueAll_aux loadHigher before after cur counts
    (computeIndices sel before after cur counts.length) st h

instance : IsTotal (Int × Key) entryLe :=
  ⟨fun a b => le_total (entryKey a) (entryKey b)⟩

instance : IsTrans (Int × Key) entryLe :=
  ⟨fun _ _ _ h1 h2 => le_trans h1 h2⟩

/-- In the single-worker service order (ascending `(priority, key)`), an
entry with strictly smaller entry key is serviced strictly earlier. -/
theorem serviceOrder_index_lt {q : List (Int × Key)} {x y : Int × Key}
    (hx : x ∈ q) (hy : y ∈ q) (hlt : entryKey x < entryKey y) :
    serviceIndex q x < serviceIndex q y := by
  have hperm := List.perm_insertionSort entryLe q
  have hx' : x ∈ serviceOrder q := hperm.mem_iff.mpr hx
  have hy' : y ∈ serviceOrder q := hperm.mem_iff.mpr hy
  have hsorted : List.Pairwise entryLe (serviceOrder q) :=
    List.sorted_insertionSort entryLe q
  have hxlen : serviceIndex q x < (serviceOrder q).length :=
    @List.indexOf_lt_length (Int × Key) _ x (serviceOrder q) |>.mpr hx'
  have hylen : serviceIndex q y < (serviceOrder q).length :=
    @List.indexOf_lt_length (Int × Key) _ y (serviceOrder q) |>.mpr hy'
  by_contra hnot
  push_neg at hnot
  have hx0 : (serviceOrder q)[serviceIndex q x] = x :=
    @List.getElem_indexOf (Int × Key) _ x (serviceOrder q) hxlen
  have hy0 : (serviceOrder q)[serviceIndex q y] = y :=
    @List.getElem_indexOf (Int × Key) _ y (serviceOrder q) hylen
  have hne : serviceIndex q y ≠ serviceIndex q x := by
    intro heq
    have hyq : (serviceOrder q)[serviceIndex q y]? = some y := by
      rw [List.getElem?_eq_getElem hylen, hy0]
    have hxq : (serviceOrder q)[serviceIndex q x]? = some x := by
      rw [List.getElem?_eq_getElem hxlen, hx0]
    rw [heq, hxq] at hyq
    have hxy : x = y := Option.some.inj hyq
    rw [hxy] at hlt
    exact lt_irrefl _ hlt
  have hlt2 : serviceIndex q y < serviceIndex q x :=
    lt_of_le_of_ne hnot hne
  have := (List.pairwise_iff_getElem.mp hsorted) _ _ hylen hxlen hlt2
  rw [hy0, hx0] at this
  exact absurd hlt (not_lt.mpr this)

/-- Claim C1, counterexample: with higher-magnification loading enabled,
buffer (1, 10), two specimens of one scan each and the current specimen 0,
the higher-magnification request of specimen 0 (distance 0, priority 11) is
serviced strictly after the thumbnail of specimen 1 (distance 1, priority
1) — so a smaller specimen distance alone does not imply being serviced no
later, contradicting the first disjunct of the claim. -/
theorem C1_cross_tier_counterexample :
    (11, ((0 : Nat), (0 : Nat), true)) ∈
      (enqueueAll true 1 10 [1, 1] none 0 (initialSchedState Nat)).queue
    ∧ (1, ((1 : Nat), (0 : Nat), false)) ∈
      (enqueueAll true 1 10 [1, 1] none 0 (initialSchedState Nat)).queue
    ∧ entryDistance 0 (11, (0, 0, true)) < entryDistance 0 (1, (1, 0, false))
    ∧ serviceIndex (enqueueAll true 1 10 [1, 1] none 0
          (initialSchedState Nat)).queue (1, (1, 0, false)) <
      serviceIndex (enqueueAll true 1 10 [1, 1] none 0
          (initialSchedState Nat)).queue (11, (0, 0, true)) := by
  decide

/-- Claim C1, amended: thumbnails are enqueued at priority equal to the
specimen-index distance from the current specimen and higher-magnification
requests at that distance plus (maximum buffer extent + 1); consequently,
for two enqueued requests of the same tier, smaller distance means strictly
earlier service, and a thumbnail is serviced strictly before any
higher-magnification request of the same or greater distance, under
single-worker sequential execution, in every configuration (restricted
index subsets included). -/
theorem C1_priority_ordering_amended {α : Type} (loadHigher : Bool)
    (before after : Nat) (counts : List Nat) (sel : Option (List Nat))
    (cur : Nat) (st : SchedState α) (x y : Int × Key)
    (hq : st.queue = [])
    (hx : x ∈ (enqueueAll loadHigher before after counts sel cur st).queue)
    (hy : y ∈ (enqueueAll loadHigher before after counts sel cur st).queue)
    (hcond : (x.2.2.2 = y.2.2.2 ∧ entryDistance cur x < entryDistance cur y)
      ∨ (x.2.2.2 = false ∧ y.2.2.2 = true
          ∧ entryDistance cur x ≤ entryDistance cur y)) :
    serviceIndex (enqueueAll loadHigher before after counts sel cur st).queue
        x <
      serviceIndex (enqueueAll loadHigher before after counts sel cur
        st).queue y
    ∧ x.1 = (if x.2.2.2 = true then himagPriority before after cur x.2.1
        else thumbPriority cur x.2.1)
    ∧ y.1 = (if y.2.2.2 = true then himagPriority before after cur y.2.1
        else thumbPriority cur y.2.1) := by
  have hm : (0 : Int) ≤ ((max before after : Nat) : Int) :=
    Int.natCast_nonneg _
  rcases mem_queue_enqueueAll loadHigher before after counts sel cur st hx
    with h | ⟨sx, _, scx, hx1⟩
  · rw [hq] at h
    exact absurd h (List.not_mem_nil x)
  rcases mem_queue_enqueueAll loadHigher before after counts sel cur st hy
    with h | ⟨sy, _, scy, hy1⟩
  · rw [hq] at h
    exact absurd h (List.not_mem_nil y)
  have hxp : x.1 = (if x.2.2.2 = true then
      himagPriority before after cur x.2.1 else thumbPriority cur x.2.1) := by
    rcases hx1 with h1 | h1 <;> rw [h1] <;> simp
  have hyp : y.1 = (if y.2.2.2 = true then
      himagPriority before after cur y.2.1 else thumbPriority cur y.2.1) := by
    rcases hy1 with h1 | h1 <;> rw [h1] <;> simp
  have hkey : x.1 < y.1 := by
    rcases hx1 with hx2 | hx2 <;> rcases hy1 with hy2 | hy2 <;>
      rcases hcond with hc | hc <;>
      simp [hx2, hy2, entryDistance, thumbPriority, himagPriority]
        at hc ⊢ <;>
      omega
  have hek : entryKey x < entryKey y := by
    unfold entryKey
    exact (Prod.Lex.lt_iff _ _).mpr (Or.inl hkey)
  exact ⟨serviceOrder_index_lt hx hy hek, hxp, hyp⟩

/-- Witness for C1_priority_ordering_amended: the thumbnail of specimen 0
is serviced before the same-distance higher-magnification request of
specimen 0. -/
theorem C1_priority_ordering_witness :
    serviceIndex (enqueueAll true 1 10 [1, 1] none 0
        (initialSchedState Nat)).queue (0, (0, 0, false)) <
      serviceIndex (enqueueAll true 1 10 [1, 1] none 0
        (initialSchedState Nat)).queue (11, (0, 0, true))
    ∧ ((0 : Int), ((0 : Nat), (0 : Nat), false)).1 =
      (if ((0 : Int), ((0 : Nat), (0 : Nat), false)).2.2.2 = true then
        himagPriority 1 10 0 ((0 : Int), ((0 : Nat), (0 : Nat), false)).2.1
       else thumbPriority 0 ((0 : Int), ((0 : Nat), (0 : Nat), false)).2.1)
    ∧ ((11 : Int), ((0 : Nat), (0 : Nat), true)).1 =
      (if ((11 : Int), ((0 : Nat), (0 : Nat), true)).2.2.2 = true then
        himagPriority 1 10 0 ((11 : Int), ((0 : Nat), (0 : Nat), true)).2.1
       else thumbPriority 0 ((11 : Int), ((0 : Nat), (0 : Nat), true)).2.1) :=
  C1_priority_ordering_amended true 1 10 [1, 1] none 0
    (initialSchedState Nat) (0, (0, 0, false)) (11, (0, 0, true)) rfl
    (by decide) (by decide) (Or.inr ⟨rfl, rfl, by decide⟩)

/-- Claim C8: the terminate sentinel (priority -1, terminate marker) compares strictly
below every entry the scheduler can enqueue — every real priority is a
nonnegative distance, or a distance plus the maximum buffer extent plus
one — and the tuple comparison is decided at the priority component, so it
never falls through to comparing the sentinel marker with a request key
(no `TypeError`); hence a worker popping the min-priority queue receives a
pending sentinel before any real request. -/
theorem C8_sentinel {α : Type} (loadHigher : Bool) (before after : Nat)
    (counts : List Nat) (sel : Option (List Nat)) (cur : Nat)
    (st : SchedState α) (e : Int × Key)
    (hq : st.queue = [])
    (he : e ∈ (enqueueAll loadHigher before after counts sel cur st).queue) :
    terminateSentinel.1 < e.1
    ∧ entryLt terminateSentinel (e.1, Payload.request e.2) = some true
    ∧ entryLt (e.1, Payload.request e.2) terminateSentinel = some false := by
  have hm : (0 : Int) ≤ ((max before after : Nat) : Int) :=
    Int.natCast_nonneg _
  have hpos : (-1 : Int) < e.1 := by
    rcases mem_queue_enqueueAll loadHigher before after counts sel cur st he
      with h | ⟨si, _, sc, h1 | h1⟩
    · rw [hq] at h
      exact absurd h (List.not_mem_nil e)
    · rw [h1]
      have := abs_nonneg ((cur : Int) - (si : Int))
      simp only [thumbPriority]
      omega
    · rw [h1]
      have := abs_nonneg ((cur : Int) - (si : Int))
      simp only [himagPriority, thumbPriority]
      omega
  refine ⟨hpos, ?_, ?_⟩
  · unfold entryLt terminateSentinel
    simp [hpos]
  · unfold entryLt terminateSentinel
    have h2 : ¬ e.1 < (-1 : Int) := by omega
    simp [h2, hpos]

/-- Witness for C8_sentinel at the thumbnail entry of specimen 1. -/
theorem C8_sentinel_witness :
    terminateSentinel.1 < ((1 : Int), ((1 : Nat), (0 : Nat), false)).1
    ∧ entryLt terminateSentinel
        (((1 : Int), ((1 : Nat), (0 : Nat), false)).1,
          Payload.request ((1 : Int), ((1 : Nat), (0 : Nat), false)).2) =
      some true
    ∧ entryLt (((1 : Int), ((1 : Nat), (0 : Nat), false)).1,
          Payload.request ((1 : Int), ((1 : Nat), (0 : Nat), false)).2)
        terminateSentinel = some false :=
  C8_sentinel true 1 10 [1, 1] none 0 (initialSchedState Nat)
    (1, (1, 0, false)) rfl (by decide)

/-- Claim C2, counterexample: after the cache maintenance step an in-flight
requested marker whose specimen index (5) is outside the new in-range set
(`[0]`) survives, and when specimen 5 later re-enters range no new load
request is enqueued for it (the queue stays empty). -/
theorem C2_requested_survives_counterexample :
    (pruneState [0]
        ({ loadedImages := [], backgroundColors := [],
           requested := [(5, 0, false)], queue := [] } : SchedState Nat)
      ).requested = [(5, 0, false)]
    ∧ (enqueueAll false 1 10 [0, 0, 0, 0, 0, 1] none 5
        (pruneState [0]
          ({ loadedImages := [], backgroundColors := [],
             requested := [(5, 0, false)], queue := [] } : SchedState Nat))
      ).queue = [] := by
  constructor
  · rfl
  · decide

/-- Claim C2, amended: the maintenance step drops every image-cache and
background-color entry whose specimen index is outside the new in-range
set, but the requested markers are only cleared for keys that are now
loaded — they are not filtered by range; consequently a key still marked
requested (for example one evicted from range before being serviced) is
never re-enqueued while its marker survives. -/
theorem C2_eviction_amended {α : Type} (indices : List Nat)
    (st : SchedState α) (p : Int) (k : Key)
    (hk : k ∈ (pruneState indices st).requested) :
    (pruneState indices st).loadedImages =
      st.loadedImages.filter (fun e => e.1.1 ∈ indices)
    ∧ (pruneState indices st).backgroundColors =
      st.backgroundColors.filter (fun e => e.1.1 ∈ indices)
    ∧ (pruneState indices st).requested =
      st.requested.filter (fun k => ¬ hasKey st.loadedImages k)
    ∧ enqueueKey p k (pruneState indices st) = pruneState indices st :=
  ⟨rfl, rfl, rfl, enqueueKey_of_mem_requested p k _ hk⟩

/-- Witness for C2_eviction_amended: the surviving out-of-range marker from
the counterexample state suppresses a new enqueue. -/
theorem C2_eviction_witness :
    enqueueKey 0 (5, 0, false)
      (pruneState [0]
        ({ loadedImages := [], backgroundColors := [],
           requested := [(5, 0, false)], queue := [] } : SchedState Nat)) =
      pruneState [0]
        ({ loadedImages := [], backgroundColors := [],
           requested := [(5, 0, false)], queue := [] } : SchedState Nat) :=
  (C2_eviction_amended [0] _ 0 (5, 0, false) (by decide)).2.2.2

/-- A dict update makes its key present. -/
theorem hasKey_dictSet_self {β : Type} (d : List (Key × β)) (k : Key)
    (v : β) : hasKey (dictSet d k v) k = true := by
  unfold dictSet
  by_cases h : hasKey d k
  · rw [if_pos h]
    unfold hasKey at h ⊢
    rw [List.any_eq_true] at h ⊢
    obtain ⟨e, he, hek⟩ := h
    rw [decide_eq_true_iff] at hek
    exact ⟨(k, v), List.mem_map.mpr ⟨e, he, by simp [hek]⟩, by simp⟩
  · rw [if_neg h]
    unfold hasKey
    rw [List.any_eq_true]
    exact ⟨(k, v), by simp, by simp⟩

/-- A dict update preserves every present key. -/
theorem hasKey_dictSet_mono {β : Type} (d : List (Key × β)) (k k' : Key)
    (v : β) (h : hasKey d k' = true) :
    hasKey (dictSet d k v) k' = true := by
  unfold dictSet
  unfold hasKey at h
  rw [List.any_eq_true] at h
  obtain ⟨e, he, hek⟩ := h
  rw [decide_eq_true_iff] at hek
  by_cases hk : hasKey d k
  · rw [if_pos hk]
    unfold hasKey
    rw [List.any_eq_true]
    by_cases hke : e.1 = k
    · refine ⟨(k, v), List.mem_map.mpr ⟨e, he, by simp [hke]⟩, ?_⟩
      simp [← hek, hke]
    · exact ⟨e, List.mem_map.mpr ⟨e, he, by simp [hke]⟩,
        by simp [hek]⟩
  · rw [if_neg hk]
    unfold hasKey
    rw [List.any_eq_true]
    exact ⟨e, List.mem_append_left _ he, by simp [hek]⟩

/-- `_load_thumbail` always writes a cache entry for its key, whether the
thumbnail path is missing, the decode fails, or it succeeds. -/
theorem loadThumbnail_hasKey_self {α : Type} (r : String → Option α)
    (bg : α → String) (tp : Option String) (k : Key) (st : SchedState α) :
    hasKey (loadThumbnail r bg tp k st).loadedImages k = true := by
  cases tp with
  | none => exact hasKey_dictSet_self _ _ _
  | some p =>
      cases hr : r p with
      | none =>
          simp only [loadThumbnail, hr]
          exact hasKey_dictSet_self _ _ _
      | some img =>
          simp only [loadThumbnail, hr]
          exact hasKey_dictSet_self _ _ _

/-- `_load_thumbail` never removes a cache entry. -/
theorem loadThumbnail_hasKey_mono {α : Type} (r : String → Option α)
    (bg : α → String) (tp : Option String) (k k' : Key) (st : SchedState α)
    (h : hasKey st.loadedImages k' = true) :
    hasKey (loadThumbnail r bg tp k st).loadedImages k' = true := by
  cases tp with
  | none => exact hasKey_dictSet_mono _ _ _ _ h
  | some p =>
      cases hr : r p with
      | none =>
          simp only [loadThumbnail, hr]
          exact hasKey_dictSet_mono _ _ _ _ h
      | some img =>
          simp only [loadThumbnail, hr]
          exact hasKey_dictSet_mono _ _ _ _ h

/-- After the current-specimen thumbnail loop, a key is present if it was
present before or is the thumbnail key of one of the visited scan
indices. -/
theorem thumbLoop_hasKey {α : Type} (r : String → Option α)
    (bg : α → String) (sp : Specimen) (cur : Nat) :
    ∀ (l : List Nat) (st : SchedState α) (k' : Key),
    (hasKey st.loadedImages k' = true ∨ ∃ i ∈ l, k' = (cur, i, false)) →
    hasKey ((l.foldl (fun st scanIndex =>
        let k : Key := (cur, scanIndex, false)
        if hasKey st.loadedImages k then st
        else loadThumbnail r bg (scanThumbnailPath sp scanIndex) k st)
      st).loadedImages) k' = true := by
  intro l
  induction l with
  | nil =>
      intro st k' h
      rcases h with h | ⟨i, hi, _⟩
      · exact h
      · exact absurd hi (List.not_mem_nil i)
  | cons j l' ih =>
      intro st k' h
      rw [List.foldl_cons]
      apply ih
      rcases h with h | ⟨i, hi, hk⟩
      · left
        by_cases hj : hasKey st.loadedImages (cur, j, false)
        · simpa [hj] using h
        · simp only [hj, if_false]
          exact loadThumbnail_hasKey_mono _ _ _ _ _ _ h
      · rcases List.mem_cons.mp hi with hij | hil
        · left
          subst hij
          subst hk
          by_cases hj : hasKey st.loadedImages (cur, i, false)
          · simp [hj]
          · simp only [hj, if_false]
            exact loadThumbnail_hasKey_self _ _ _ _ _
        · right
          exact ⟨i, hil, hk⟩

/-- A present key is found by the dict lookup. -/
theorem dictGet_ne_none_of_hasKey {α : Type} {d : List (Key × α)} {k : Key}
    (h : hasKey d k = true) : dictGet d k ≠ none := by
  unfold hasKey at h
  rw [List.any_eq_true] at h
  obtain ⟨e, he, hek⟩ := h
  intro hc
  unfold dictGet at hc
  have hs : (List.find? (fun e => decide (e.1 = k)) d).isSome = true :=
    List.find?_isSome.mpr ⟨e, he, hek⟩
  cases hfind : List.find? (fun e => decide (e.1 = k)) d with
  | none => rw [hfind] at hs; exact Bool.noConfusion hs
  | some v => rw [hfind] at hc; exact Option.noConfusion hc

/-- Enqueueing never touches the image cache. -/
theorem enqueueKey_loadedImages {α : Type} (p : Int) (k : Key)
    (st : SchedState α) :
    (enqueueKey p k st).loadedImages = st.loadedImages := by
  unfold enqueueKey
  split
  · rfl
  · split
    · rfl
    · rfl

theorem enqueueForSpecimen_loadedImages {α : Type} (loadHigher : Bool)
    (before after cur si ns : Nat) (st : SchedState α) :
    (enqueueForSpecimen loadHigher before after cur si ns st).loadedImages =
      st.loadedImages := by
  induction ns with
  | zero => rfl
  | succ n ih =>
      rw [enqueueForSpecimen, List.range_succ, List.foldl_append,
        List.foldl_cons, List.foldl_nil]
      rw [enqueueForSpecimen] at ih
      by_cases hlh : loadHigher = true
      · rw [hlh] at ih ⊢
        simp only [eq_self_iff_true, if_true]
        rw [enqueueKey_loadedImages, enqueueKey_loadedImages]
        exact ih
      · rw [Bool.not_eq_true] at hlh
        rw [hlh] at ih ⊢
        simp only [Bool.false_eq_true, if_false]
        rw [enqueueKey_loadedImages]
        exact ih

theorem enqueueAll_loadedImages {α : Type} (loadHigher : Bool)
    (before after : Nat) (counts : List Nat) (sel : Option (List Nat))
    (cur : Nat) (st : SchedState α) :
    (enqueueAll loadHigher before after counts sel cur st).loadedImages =
      st.loadedImages := by
  unfold enqueueAll
  generalize computeIndices sel before after cur counts.length = idxs
  induction idxs generalizing st with
  | nil => rfl
  | cons i idxs' ih =>
      rw [List.foldl_cons, ih, enqueueForSpecimen_loadedImages]

/-- Claim C10: after the synchronous current-specimen thumbnail pass of
`_change_widgets`, every thumbnail key of the current specimen is present
in the image cache (as a decoded image or the explicit no-image marker), so
the later cache lookups of the same widget-update step — the button
rendering direct indexing and the `_set_image` fallback lookup — never hit
a missing key; the following enqueue phase leaves the cache untouched. -/
theorem C10_thumbnail_cache_total {α : Type} (r : String → Option α)
    (bg : α → String) (sp : Specimen) (cur : Nat) (st : SchedState α)
    (loadHigher : Bool) (before after : Nat) (counts : List Nat)
    (sel : Option (List Nat)) (i : Nat) (hi : i < sp.scans.length) :
    hasKey (loadCurrentThumbnails r bg sp cur st).loadedImages
      (cur, i, false) = true
    ∧ dictGet (loadCurrentThumbnails r bg sp cur st).loadedImages
      (cur, i, false) ≠ none
    ∧ setImageLookup (loadCurrentThumbnails r bg sp cur st) cur i ≠ none
    ∧ (enqueueAll loadHigher before after counts sel cur
        (loadCurrentThumbnails r bg sp cur st)).loadedImages =
      (loadCurrentThumbnails r bg sp cur st).loadedImages := by
  have hk : hasKey (loadCurrentThumbnails r bg sp cur st).loadedImages
      (cur, i, false) = true := by
    unfold loadCurrentThumbnails
    exact thumbLoop_hasKey r bg sp cur (List.range sp.scans.length) st
      (cur, i, false) (Or.inr ⟨i, List.mem_range.mpr hi, rfl⟩)
  refine ⟨hk, dictGet_ne_none_of_hasKey hk, ?_,
    enqueueAll_loadedImages _ _ _ _ _ _ _⟩
  unfold setImageLookup
  by_cases hh : hasKey (loadCurrentThumbnails r bg sp cur st).loadedImages
    (cur, i, true)
  · simp only [hh, if_pos]
    exact dictGet_ne_none_of_hasKey hh
  · simp only [hh, if_false]
    exact dictGet_ne_none_of_hasKey hk

/-- Witness for C10_thumbnail_cache_total: one scan without a thumbnail
path still gets a cache entry (the no-image marker), and the lookups find
it. -/
theorem C10_thumbnail_cache_witness :
    hasKey (loadCurrentThumbnails (fun _ => (none : Option Nat))
      (fun _ => "") exampleSpecimen 0 (initialSchedState Nat)).loadedImages
      (0, 0, false) = true
    ∧ dictGet (loadCurrentThumbnails (fun _ => (none : Option Nat))
      (fun _ => "") exampleSpecimen 0 (initialSchedState Nat)).loadedImages
      (0, 0, false) ≠ none
    ∧ setImageLookup (loadCurrentThumbnails (fun _ => (none : Option Nat))
      (fun _ => "") exampleSpecimen 0 (initialSchedState Nat)) 0 0 ≠ none
    ∧ (enqueueAll false 1 10 [1] none 0
        (loadCurrentThumbnails (fun _ => (none : Option Nat))
          (fun _ => "") exampleSpecimen 0 (initialSchedState Nat))
      ).loadedImages =
      (loadCurrentThumbnails (fun _ => (none : Option Nat))
        (fun _ => "") exampleSpecimen 0 (initialSchedState Nat)).loadedImages :=
  C10_thumbnail_cache_total (fun _ => (none : Option Nat)) (fun _ => "")
    exampleSpecimen 0 (initialSchedState Nat) false 1 10 [1] none 0
    (by decide)

/-- `Slide.selected_information`, characterized: `some` of the slide with
only its selected scans when at least one scan is selected, `none`
otherwise. -/
theorem slide_selectedInformation_eq (sl : Slide) :
    sl.selectedInformation =
      (if sl.scans.any scanIsSelected then
        some { sl with scans := sl.scans.filter scanIsSelected }
       else none) := by
  unfold Slide.selectedInformation
  by_cases h : sl.scans.any scanIsSelected
  · rw [if_pos h]
    have hlen : (sl.scans.filter scanIsSelected).length ≠ 0 := by
      rw [Ne, List.length_eq_zero, List.filter_eq_nil_iff]
      rw [List.any_eq_true] at h
      obtain ⟨x, hx, hpx⟩ := h
      intro hall
      exact hall x hx hpx
    rw [if_pos hlen]
  · rw [if_neg h]
    have hnil : sl.scans.filter scanIsSelected = [] := by
      rw [List.filter_eq_nil_iff]
      intro a ha hpa
      exact h (List.any_eq_true.mpr ⟨a, ha, hpa⟩)
    simp [hnil]

/-- The collected per-slide selected information is the filtered view:
only slides with a selected scan, each restricted to its selected scans. -/
theorem slides_filterMap_selectedInformation (slides : List Slide) :
    slides.filterMap Slide.selectedInformation =
      (slides.filter (fun sl => sl.scans.any scanIsSelected)).map
        (fun sl => { sl with scans := sl.scans.filter scanIsSelected }) := by
  induction slides with
  | nil => rfl
  | cons sl rest ih =>
      by_cases h : sl.scans.any scanIsSelected
      · simp [List.filterMap_cons, List.filter_cons,
          slide_selectedInformation_eq, h, ih]
      · simp [List.filterMap_cons, List.filter_cons,
          slide_selectedInformation_eq, h, ih]

/-- No selected scan anywhere iff no slide has a selected scan. -/
theorem no_selected_scan_iff (sp : Specimen) :
    sp.scans.filter scanIsSelected = [] ↔
      sp.slides.filter (fun sl => sl.scans.any scanIsSelected) = [] := by
  unfold Specimen.scans
  simp only [List.filter_eq_nil_iff, List.mem_flatMap, List.any_eq_true]
  constructor
  · intro h sl hsl hany
    obtain ⟨sc, hsc, hsel⟩ := hany
    exact h sc ⟨sl, hsl, hsc⟩ hsel
  · intro h sc hsc hsel
    obtain ⟨sl, hsl, hscsl⟩ := hsc
    exact h sl hsl ⟨sc, hscsl, hsel⟩

/-- Claim C6: `selected_information` returns the explicit absent value
exactly when zero scans across the whole specimen are selected; otherwise
it returns the structure containing only the slides with at least one
selected scan and, within each, only the selected scans (with the
comments of the specimen). -/
theorem C6_selected_information (sp : Specimen) :
    sp.selectedInformation =
      (if sp.scans.filter scanIsSelected = [] then none
       else some
         { slides := (sp.slides.filter
               (fun sl => sl.scans.any scanIsSelected)).map
               (fun sl => { sl with scans := sl.scans.filter scanIsSelected }),
           comments := sp.comments }) := by
  unfold Specimen.selectedInformation
  rw [slides_filterMap_selectedInformation]
  by_cases h : sp.scans.filter scanIsSelected = []
  · rw [if_pos h]
    have hf := (no_selected_scan_iff sp).mp h
    simp [hf]
  · rw [if_neg h]
    have hf : sp.slides.filter (fun sl => sl.scans.any scanIsSelected) ≠ [] :=
      fun hc => h ((no_selected_scan_iff sp).mpr hc)
    have hlen : ((sp.slides.filter
        (fun sl => sl.scans.any scanIsSelected)).map
          (fun sl => { sl with scans := sl.scans.filter scanIsSelected })
        ).length ≠ 0 := by
      rw [List.length_map, Ne, List.length_eq_zero]
      exact hf
    rw [if_pos hlen]

/-- A `filterMap` whose function always succeeds is a `map`. -/
theorem filterMap_eq_map_of_forall {γ δ : Type} (xs : List γ)
    (F : γ → Option δ) (G : γ → δ) (h : ∀ x ∈ xs, F x = some (G x)) :
    xs.filterMap F = xs.map G := by
  induction xs with
  | nil => rfl
  | cons a l ih =>
      rw [List.filterMap_cons, h a (List.mem_cons_self a l), List.map_cons,
        ih (fun x hx => h x (List.mem_cons_of_mem a hx))]

/-- Every sort tuple comes from a valid slide index. -/
theorem mem_keyedSlides {f : String → Bool} {slides : List Slide}
    {k : KeyedIdx} (hk : k ∈ keyedSlides f slides) :
    ∃ i, i < slides.length ∧
      k = toLex (slideKey f (slides.getD i dummySlide), i) := by
  unfold keyedSlides at hk
  rw [List.mem_map] at hk
  obtain ⟨i, hi, hk⟩ := hk
  exact ⟨i, List.mem_range.mp hi, hk.symm⟩

/-- The slides after `sort_slides` are the original slides re-indexed along
the sorted tuples. -/
theorem sortSlides_slides (f : String → Bool) (sp : Specimen) :
    (sp.sortSlides f).slides =
      (List.insertionSort (· ≤ ·) (keyedSlides f sp.slides)).map
        (fun k => sp.slides.getD (ofLex k).2 dummySlide) := by
  show ((List.insertionSort (· ≤ ·) (keyedSlides f sp.slides)).map
      (fun k => (ofLex k).2)).filterMap (fun i => sp.slides[i]?) = _
  rw [List.filterMap_map]
  refine filterMap_eq_map_of_forall _ _ _ ?_
  intro k hk
  have hkm : k ∈ keyedSlides f sp.slides :=
    (List.perm_insertionSort (· ≤ ·) (keyedSlides f sp.slides)).mem_iff.mp hk
  obtain ⟨i, hi, hik⟩ := mem_keyedSlides hkm
  subst hik
  show sp.slides[i]? = some (sp.slides.getD i dummySlide)
  rw [List.getElem?_eq_getElem hi, List.getD_eq_getElem sp.slides dummySlide hi]

/-- The first component of a sorted tuple is the natsort key of the slide
its index points at, and the index is in range. -/
theorem sorted_key_eq {f : String → Bool} {slides : List Slide}
    {k : KeyedIdx}
    (hk : k ∈ List.insertionSort (· ≤ ·) (keyedSlides f slides)) :
    (ofLex k).1 = slideKey f (slides.getD (ofLex k).2 dummySlide)
    ∧ (ofLex k).2 < slides.length := by
  have hkm : k ∈ keyedSlides f slides :=
    (List.perm_insertionSort (· ≤ ·) (keyedSlides f slides)).mem_iff.mp hk
  obtain ⟨i, hi, hik⟩ := mem_keyedSlides hkm
  subst hik
  exact ⟨rfl, hi⟩

theorem keyedSlides_length (f : String → Bool) (slides : List Slide) :
    (keyedSlides f slides).length = slides.length := by
  unfold keyedSlides
  rw [List.length_map, List.length_range]

theorem keyedSlides_getElem (f : String → Bool) (slides : List Slide)
    (n : Nat) (hn : n < (keyedSlides f slides).length) :
    (keyedSlides f slides)[n] =
      toLex (slideKey f (slides.getD n dummySlide), n) := by
  unfold keyedSlides at hn ⊢
  rw [List.getElem_map, List.getElem_range]

/-- After one `sort_slides`, the freshly built sort tuples (with new
indices as tie-break) are already in nondecreasing order. -/
theorem keyedSlides_sorted_after_sort (f : String → Bool) (sp : Specimen) :
    List.Pairwise (fun a b : KeyedIdx => a ≤ b)
      (keyedSlides f (sp.sortSlides f).slides) := by
  rw [sortSlides_slides]
  have hsorted : List.Pairwise (fun a b : KeyedIdx => a ≤ b)
      (List.insertionSort (· ≤ ·) (keyedSlides f sp.slides)) :=
    List.sorted_insertionSort (· ≤ ·) (keyedSlides f sp.slides)
  rw [List.pairwise_iff_getElem] at hsorted ⊢
  intro i j hi hj hij
  have hleneq : (keyedSlides f
      ((List.insertionSort (· ≤ ·) (keyedSlides f sp.slides)).map
        (fun k => sp.slides.getD (ofLex k).2 dummySlide))).length =
      (List.insertionSort (· ≤ ·) (keyedSlides f sp.slides)).length := by
    rw [keyedSlides_length, List.length_map]
  have hi' : i < (List.insertionSort (· ≤ ·)
      (keyedSlides f sp.slides)).length := hleneq ▸ hi
  have hj' : j < (List.insertionSort (· ≤ ·)
      (keyedSlides f sp.slides)).length := hleneq ▸ hj
  have hel : ∀ (n : Nat) (hn : n < (keyedSlides f
      ((List.insertionSort (· ≤ ·) (keyedSlides f sp.slides)).map
        (fun k => sp.slides.getD (ofLex k).2 dummySlide))).length)
      (hn' : n < (List.insertionSort (· ≤ ·)
        (keyedSlides f sp.slides)).length),
      (keyedSlides f
        ((List.insertionSort (· ≤ ·) (keyedSlides f sp.slides)).map
          (fun k => sp.slides.getD (ofLex k).2 dummySlide)))[n] =
        toLex ((ofLex ((List.insertionSort (· ≤ ·)
          (keyedSlides f sp.slides))[n])).1, n) := by
    intro n hn hn'
    rw [keyedSlides_getElem]
    have hdg : ((List.insertionSort (· ≤ ·) (keyedSlides f sp.slides)).map
        (fun k => sp.slides.getD (ofLex k).2 dummySlide)).getD n dummySlide =
        sp.slides.getD (ofLex ((List.insertionSort (· ≤ ·)
          (keyedSlides f sp.slides))[n])).2 dummySlide := by
      rw [List.getD_eq_getElem _ _ (by rw [List.length_map]; exact hn'),
        List.getElem_map]
    rw [hdg]
    have hkey := (sorted_key_eq (List.getElem_mem hn')).1
    rw [← hkey]
  have hx := hel i hi hi'
  have hy := hel j hj hj'
  rw [hx, hy]
  have hle : toLex (ofLex ((List.insertionSort (· ≤ ·)
        (keyedSlides f sp.slides))[i])) ≤
      toLex (ofLex ((List.insertionSort (· ≤ ·)
        (keyedSlides f sp.slides))[j])) :=
    hsorted i j hi' hj' hij
  rcases (Prod.Lex.le_iff _ _).mp hle with hlt | ⟨heq, _⟩
  · exact le_of_lt ((Prod.Lex.lt_iff _ _).mpr (Or.inl hlt))
  · exact (Prod.Lex.le_iff _ _).mpr (Or.inr ⟨heq, le_of_lt hij⟩)

/-- Claim C9: `sort_slides` is idempotent for every specimen and every
stain-classifier predicate — the original index is the final tie-break, so
the sorted order is a fixed point of the sort — and the derived flattened
scan order is likewise unchanged by a second sort. -/
theorem C9_sort_slides_idempotent (f : String → Bool) (sp : Specimen) :
    (sp.sortSlides f).sortSlides f = sp.sortSlides f
    ∧ ((sp.sortSlides f).sortSlides f).scans = (sp.sortSlides f).scans := by
  have hmain : (sp.sortSlides f).sortSlides f = sp.sortSlides f := by
    have hP : List.Pairwise (fun a b : KeyedIdx => a ≤ b)
        (keyedSlides f (sp.sortSlides f).slides) :=
      keyedSlides_sorted_after_sort f sp
    have hfix : List.insertionSort (· ≤ ·)
        (keyedSlides f (sp.sortSlides f).slides) =
        keyedSlides f (sp.sortSlides f).slides :=
      List.Sorted.insertionSort_eq hP
    show Specimen.mk
        (((List.insertionSort (· ≤ ·)
          (keyedSlides f (sp.sortSlides f).slides)).map
            (fun k => (ofLex k).2)).filterMap
              (fun i => (sp.sortSlides f).slides[i]?))
        (sp.sortSlides f).comments =
      sp.sortSlides f
    rw [hfix]
    have hmap : (keyedSlides f (sp.sortSlides f).slides).map
        (fun k => (ofLex k).2) =
        List.range (sp.sortSlides f).slides.length := by
      unfold keyedSlides
      rw [List.map_map]
      have hpt : ∀ i ∈ List.range (sp.sortSlides f).slides.length,
          ((fun k : KeyedIdx => (ofLex k).2) ∘ (fun i =>
            toLex (slideKey f ((sp.sortSlides f).slides.getD i dummySlide),
              i))) i = id i := fun i _ => rfl
      rw [List.map_congr_left hpt, List.map_id]
    rw [hmap]
    have h1 : ∀ i ∈ List.range (sp.sortSlides f).slides.length,
        (sp.sortSlides f).slides[i]? =
          some ((sp.sortSlides f).slides.getD i dummySlide) := by
      intro i hi
      have hilt := List.mem_range.mp hi
      rw [List.getElem?_eq_getElem hilt,
        List.getD_eq_getElem _ dummySlide hilt]
    rw [filterMap_eq_map_of_forall _ _
      (fun i => (sp.sortSlides f).slides.getD i dummySlide) h1]
    have hback : (List.range (sp.sortSlides f).slides.length).map
        (fun i => (sp.sortSlides f).slides.getD i dummySlide) =
        (sp.sortSlides f).slides := by
      apply List.ext_getElem
      · rw [List.length_map, List.length_range]
      · intro n h1' h2'
        rw [List.getElem_map, List.getElem_range]
        exact List.getD_eq_getElem _ _ h2'
    rw [hback]
  exact ⟨hmain, congrArg Specimen.scans hmain⟩

end SelectionTool
